import Mathlib

/-!
# Verification of the llvm-select version model

Shallow embedding of the version-identification and source-layout logic of
`llvm-select.py` (classes `LLVMVersionDetails`, `LLVMBuilder`, and the
`__main__` dispatch).  Python strings are modelled as `List Char` / `String`,
Python `int` as `Int` (with the built-in `int(str)` conversion modelled by
`pyInt`), Python `None` as `Option.none`.  The ambient `platform.system()`
call is passed explicitly as a `String` parameter.  Side-effecting code is
modelled as the list of effects it performs on its success path.
-/

namespace LLVMSelect

/-- The whitespace characters stripped by CPython's `int(str)` conversion
(ASCII subset). -/
def pyWhitespace : List Char := [' ', '\t', '\n', '\r', '\x0b', '\x0c']

/-- Numeric value of an ASCII digit character. -/
def digitVal (c : Char) : Nat := c.toNat - 48

/-- The decimal digit character for `d` (callers only use `d < 10`). -/
def digitChar : Nat → Char
  | 0 => '0'
  | 1 => '1'
  | 2 => '2'
  | 3 => '3'
  | 4 => '4'
  | 5 => '5'
  | 6 => '6'
  | 7 => '7'
  | 8 => '8'
  | _ => '9'

/-- Digit-string accumulator for `pyDigits`: CPython allows a single
underscore between two digits (`"1_0"` is `10`; `"_1"`, `"1_"`, `"1__0"`
are errors). -/
def pyDigitsAux : Nat → List Char → Option Nat
  | acc, [] => some acc
  | acc, c :: cs =>
    if c.isDigit then pyDigitsAux (acc * 10 + digitVal c) cs
    else if c = '_' then
      match cs with
      | [] => none
      | d :: cs2 => if d.isDigit then pyDigitsAux (acc * 10 + digitVal d) cs2 else none
    else none

/-- Parses a non-empty unsigned decimal digit string the way CPython's
`int(str)` does (after sign and whitespace handling). -/
def pyDigits : List Char → Option Nat
  | [] => none
  | c :: cs => if c.isDigit then pyDigitsAux (digitVal c) cs else none

/-- Strips leading and trailing whitespace, as CPython's `int(str)` does. -/
def pyStrip (cs : List Char) : List Char :=
  ((cs.dropWhile (· ∈ pyWhitespace)).reverse.dropWhile (· ∈ pyWhitespace)).reverse

/-- Model of CPython's `int(str)` conversion (ASCII inputs): strip
whitespace, optional single sign, then a decimal digit string.  `none`
models the `ValueError` raised on malformed input. -/
def pyInt (cs : List Char) : Option Int :=
  match pyStrip cs with
  | '-' :: rest => (pyDigits rest).map (fun n => -(n : Int))
  | '+' :: rest => (pyDigits rest).map (fun n => (n : Int))
  | rest => (pyDigits rest).map (fun n => (n : Int))

/-- Model of Python's `str.split('.')`: `"".split('.') == ['']`,
`"a..b".split('.') == ['a', '', 'b']`. -/
def splitDots : List Char → List (List Char)
  | [] => [[]]
  | c :: cs =>
    if c = '.' then [] :: splitDots cs
    else
      match splitDots cs with
      | [] => [[c]]
      | r :: rs => (c :: r) :: rs

/-- Model of the list comprehension `[int(v) for v in s.split('.')]`
wrapped in `try`/`except`: the whole conversion fails if any component
fails to convert. -/
def parseComponents : List (List Char) → Option (List Int)
  | [] => some []
  | c :: cs =>
    match pyInt c, parseComponents cs with
    | some v, some vs => some (v :: vs)
    | _, _ => none

/-- The version triple held by `LLVMVersionDetails` (`__init__` fields
`major`, `minor`, `revision`).  The components are `Nat` because
`fromVersionString` rejects negative components before constructing the
object; `revision = none` models Python `None`. -/
structure LLVMVersionDetails where
  major : Nat
  minor : Nat
  revision : Option Nat
deriving Repr, DecidableEq

/-- Decimal rendering of a natural number, modelling Python's `str(int)`
for the non-negative values that occur in version components. -/
def natDigits (n : Nat) : List Char :=
  if n < 10 then [digitChar n] else natDigits (n / 10) ++ [digitChar (n % 10)]
termination_by n
decreasing_by exact Nat.div_lt_self (by omega) (by omega)

/-- `str(n)` for a non-negative Python int. -/
def natStr (n : Nat) : String := ⟨natDigits n⟩

/-- Model of `LLVMVersionDetails.__str__`: `major.minor`, with `.revision`
appended when the revision is present. -/
def LLVMVersionDetails.str (v : LLVMVersionDetails) : String :=
  let s := natStr v.major ++ "." ++ natStr v.minor
  match v.revision with
  | some r => s ++ "." ++ natStr r
  | none => s

/-- Model of `LLVMVersionDetails.fromVersionString`: split on `.`, convert
every component with `int`, then apply the four validation checks of the
source in order (component count, non-negativity, minimum version 2.6,
3-component form only from 3.4 on, 2-component form only up to 3.4). -/
def LLVMVersionDetails.fromVersionString (s : String) : Option LLVMVersionDetails :=
  match parseComponents (splitDots s.data) with
  | none => none
  | some version =>
    match version with
    | [major, minor] =>
      if major < 0 ∨ minor < 0 then none
      else if major < 2 ∨ (major = 2 ∧ minor < 6) then none
      else if major > 3 ∨ (major = 3 ∧ minor > 4) then none
      else some ⟨major.toNat, minor.toNat, none⟩
    | [major, minor, rev] =>
      if major < 0 ∨ minor < 0 ∨ rev < 0 then none
      else if major < 2 ∨ (major = 2 ∧ minor < 6) then none
      else if major < 3 ∨ (major = 3 ∧ minor < 4) then none
      else some ⟨major.toNat, minor.toNat, some rev.toNat⟩
    | _ => none

/-- Model of `LLVMVersionDetails._determineExtenion` (sic): the file
extension of the source tarballs, as a step function of the version. -/
def LLVMVersionDetails.determineExtenion (v : LLVMVersionDetails) : String :=
  if v.major = 2 ∧ v.minor > 6 then ".tgz"
  else if (v.major = 2 ∧ v.minor = 6) ∨ (v.major = 3 ∧ v.minor = 0) then ".tar.gz"
  else if v.major = 3 ∧ v.minor < 5 then ".src.tar.gz"
  else ".src.tar.xz"

/-- The keys of the `tarballs` dictionary built by
`LLVMVersionDetails._listTarballs`, in insertion order. -/
inductive TarballName where
  | llvm
  | clang
  | compilerRt
  | libcxx
deriving Repr, DecidableEq

/-- The Python dictionary key string for each tarball. -/
def TarballName.key : TarballName → String
  | .llvm => "llvm"
  | .clang => "clang"
  | .compilerRt => "compiler-rt"
  | .libcxx => "libcxx"

/-- The `tarballs` dictionary: each key maps to an optional tarball
base-name (`none` models Python `None`, "not applicable"). -/
structure Tarballs where
  llvm : Option String
  clang : Option String
  compilerRt : Option String
  libcxx : Option String
deriving Repr, DecidableEq

/-- Dictionary lookup `self.tarballs[tarballName]`. -/
def Tarballs.get (t : Tarballs) : TarballName → Option String
  | .llvm => t.llvm
  | .clang => t.clang
  | .compilerRt => t.compilerRt
  | .libcxx => t.libcxx

/-- Model of `LLVMVersionDetails._listTarballs`.  The source reads the
ambient `platform.system()`; here it is the explicit `platformSystem`
argument. -/
def LLVMVersionDetails.listTarballs (v : LLVMVersionDetails)
    (platformSystem : String) : Tarballs where
  llvm := some "llvm"
  clang :=
    if v.major < 3 ∨ (v.major = 3 ∧ (v.minor < 3 ∨ (v.minor = 4 ∧ v.revision = none))) then
      some "clang"
    else
      some "cfe"
  compilerRt :=
    if platformSystem ≠ "Windows" ∧ (v.major > 3 ∨ (v.major = 3 ∧ v.minor ≥ 1)) then
      some "compiler-rt"
    else
      none
  libcxx :=
    if platformSystem = "Darwin" ∧ (v.major > 3 ∨ (v.major = 3 ∧ v.minor ≥ 3)) then
      some "libcxx"
    else
      none

/-- Model of `LLVMVersionDetails._tarballVersionString`: for LLVM 3.4.x the
version numbers for compiler-rt and libcxx are still just `major.minor`;
all other releases use the full version string. -/
def LLVMVersionDetails.tarballVersionString (v : LLVMVersionDetails)
    (tarballName : TarballName) : String :=
  if (tarballName = .compilerRt ∨ tarballName = .libcxx) ∧ (v.major = 3 ∧ v.minor = 4) then
    natStr v.major ++ "." ++ natStr v.minor
  else
    v.str

/-- Model of `LLVMVersionDetails.tarballFilename`. -/
def LLVMVersionDetails.tarballFilename (v : LLVMVersionDetails)
    (platformSystem : String) (tarballName : TarballName) : Option String :=
  match (v.listTarballs platformSystem).get tarballName with
  | some tarball =>
      some (tarball ++ "-" ++ v.tarballVersionString tarballName ++ v.determineExtenion)
  | none => none

/-- Model of `LLVMVersionDetails.tarballURL`. -/
def LLVMVersionDetails.tarballURL (v : LLVMVersionDetails)
    (platformSystem : String) (tarballName : TarballName) : Option String :=
  if (v.listTarballs platformSystem).get tarballName = none then none
  else
    (v.tarballFilename platformSystem tarballName).map
      (fun f => "http://llvm.org/releases/" ++ v.tarballVersionString tarballName ++ "/" ++ f)

/-- Ordering key for the revision component: an absent revision sorts below
any present revision (spec section 3). -/
def revisionKey : Option Nat → Int
  | none => -1
  | some r => r

/-- Strict version ordering: lexicographic on major, minor, revision, with
an absent revision below any present one. -/
def versionLt (u v : LLVMVersionDetails) : Prop :=
  u.major < v.major ∨
    (u.major = v.major ∧
      (u.minor < v.minor ∨
        (u.minor = v.minor ∧ revisionKey u.revision < revisionKey v.revision)))

instance (u v : LLVMVersionDetails) : Decidable (versionLt u v) := by
  unfold versionLt; infer_instance

/-- The list of valid CMake build types (`LLVMBuilder.CmakeBuildTypes`). -/
def CmakeBuildTypes : List String := ["Release", "Debug", "RelWithDebInfo", "MinSizeRel"]

/-- A side effect performed by the builder: directory creation, an external
command run via `Utility.runOrFail` (with its working directory), a file
copy, or a `Utility.removeIfExists` call. -/
inductive Effect where
  | makedirs (path : String)
  | runCommand (cmd : List String) (cwd : Option String)
  | copyFile (src dst : String)
  | removeIfExists (path : String)
deriving Repr, DecidableEq

/-- Model of `LLVMBuilder.cleanupFiles`: iterate the tarball dictionary in
insertion order; for every tarball whose filename is present, remove the
downloaded archive and the unpacked `<name>-src` directory from the
working directory. -/
def cleanupFilesEffects (v : LLVMVersionDetails) (platformSystem cwd : String) :
    List Effect :=
  [TarballName.llvm, TarballName.clang, TarballName.compilerRt, TarballName.libcxx].flatMap
    (fun name =>
      match v.tarballFilename platformSystem name with
      | some tarball =>
          [Effect.removeIfExists (cwd ++ "/" ++ tarball),
           Effect.removeIfExists (cwd ++ "/" ++ name.key ++ "-src")]
      | none => [])

/-- Model of `LLVMBuilder.build` as the sequence of side effects it
performs on its success path.  The ambient inputs of the source are
explicit parameters: `platformSystem` is `platform.system()`, `ninjaOk` and
`gppOk` are the `Utility.commandSucceeded` probes for `ninja --version` and
`g++ -v`, `dllExists`/`gppDir` describe the `where g++` lookup of the
post-install DLL fixup, and `cwd` is `os.getcwd()`.  Note that the source
performs no validation of `buildType`: the first effect is always the
`makedirs` call for the build directory. -/
def buildEffects (buildType installationRoot platformSystem : String)
    (ninjaOk gppOk dllExists : Bool) (gppDir cwd : String)
    (version : LLVMVersionDetails) (cleanup : Bool) : List Effect :=
  let buildDir := cwd ++ "/llvm-src/build"
  let sep := if platformSystem = "Windows" then "\\" else "/"
  let installDir := installationRoot ++ sep ++ version.str ++ "-" ++ buildType
  let cmakeGenerator :=
    if platformSystem ≠ "Windows" ∧ ninjaOk = true then "Ninja"
    else if platformSystem = "Windows" ∧ gppOk = false then "NMake Makefiles"
    else "Unix Makefiles"
  let buildDirTG := cwd ++ "/llvm-src/build-tblgen"
  let tblgenEffects :=
    if platformSystem = "Windows" ∧ gppOk = true then
      [Effect.makedirs buildDirTG,
       Effect.runCommand
         ["cmake", "-DCMAKE_BUILD_TYPE=" ++ buildType, "-DLLVM_INCLUDE_TESTS=false",
          "-G", cmakeGenerator, ".."] (some buildDirTG),
       Effect.runCommand ["cmake", "--build", ".", "--target", "llvm-tblgen"] (some buildDirTG),
       Effect.runCommand ["cmake", "--build", ".", "--target", "clang-tblgen"] (some buildDirTG)]
    else []
  let extraCmakeFlags :=
    if platformSystem = "Windows" ∧ gppOk = true then
      ["-DLLVM_TABLEGEN=" ++ buildDirTG ++ "/bin/llvm-tblgen.exe",
       "-DCLANG_TABLEGEN=" ++ buildDirTG ++ "/bin/clang-tblgen.exe"]
    else []
  let dllEffects :=
    if platformSystem = "Windows" ∧ gppOk = true ∧ dllExists = true then
      [Effect.copyFile (gppDir ++ "/libstdc++-6.dll") (installDir ++ "/bin/libstdc++-6.dll")]
    else []
  [Effect.makedirs buildDir] ++ tblgenEffects ++
    [Effect.runCommand
       (["cmake", "-DCMAKE_INSTALL_PREFIX=" ++ installDir,
         "-DCMAKE_BUILD_TYPE=" ++ buildType, "-DLLVM_ENABLE_EH=true",
         "-DLLVM_ENABLE_RTTI=true", "-DLLVM_INCLUDE_TESTS=false"] ++ extraCmakeFlags ++
         ["-G", cmakeGenerator, ".."]) (some buildDir),
     Effect.runCommand ["cmake", "--build", "."] (some buildDir),
     Effect.runCommand ["cmake", "--build", ".", "--target", "install"] (some buildDir)] ++
    dllEffects ++
    (if cleanup = true then cleanupFilesEffects version platformSystem cwd else [])

/-- The parsed command-line arguments of `__main__`. -/
structure MainArgs where
  list : Bool
  remove : Bool
  install : Bool
  noCleanup : Bool
  version : String
  buildtype : String

/-- The early-exit errors of `__main__` (each prints a message and calls
`sys.exit(1)` before any side effect is attempted). -/
inductive MainError where
  | invalidBuildType (buildtype : String)
  | missingVersion
  | unsupportedVersion (version : String)
deriving Repr, DecidableEq

/-- The operation `__main__` dispatches to once validation has passed.  All
side effects of the program happen inside the dispatched operation. -/
inductive MainAction where
  | listVersions
  | removeVersion (version : LLVMVersionDetails) (buildtype : String)
  | installVersion (version : LLVMVersionDetails) (buildtype : String) (noCleanup : Bool)
  | activateVersion (version : LLVMVersionDetails) (buildtype : String)
deriving Repr, DecidableEq

/-- Model of the validation-and-dispatch prefix of `__main__` (source lines
437-507): first the build type is checked against `CmakeBuildTypes`, then
the version string is parsed and checked, and only then is one of the four
operations selected. -/
def mainDispatch (args : MainArgs) : Except MainError MainAction :=
  if args.buildtype ∉ CmakeBuildTypes then
    .error (.invalidBuildType args.buildtype)
  else
    let version := LLVMVersionDetails.fromVersionString args.version
    if args.list = false ∧ args.version = "" then .error .missingVersion
    else if args.list = false ∧ version = none then .error (.unsupportedVersion args.version)
    else if args.list = true then .ok .listVersions
    else
      match version with
      | some v =>
        if args.remove = true then .ok (.removeVersion v args.buildtype)
        else if args.install = true then .ok (.installVersion v args.buildtype args.noCleanup)
        else .ok (.activateVersion v args.buildtype)
      | none => .error (.unsupportedVersion args.version)

example : LLVMVersionDetails.fromVersionString "3.4" = some ⟨3, 4, none⟩ := by decide
example : LLVMVersionDetails.fromVersionString "3.4.0" = some ⟨3, 4, some 0⟩ := by decide
example : LLVMVersionDetails.fromVersionString "2.6.0" = none := by decide
example : LLVMVersionDetails.fromVersionString "2.5" = none := by decide
example : LLVMVersionDetails.fromVersionString "3.4.1.2" = none := by decide
example : LLVMVersionDetails.fromVersionString "-3.7.0" = none := by decide
example : LLVMVersionDetails.fromVersionString "hg" = none := by decide
example : LLVMVersionDetails.fromVersionString "3." = none := by decide
example : LLVMVersionDetails.fromVersionString "3.5.0" = some ⟨3, 5, some 0⟩ := by decide
example : LLVMVersionDetails.fromVersionString "2.6" = some ⟨2, 6, none⟩ := by decide
example : LLVMVersionDetails.fromVersionString "3.5" = none := by decide
example : LLVMVersionDetails.fromVersionString "2.10" = some ⟨2, 10, none⟩ := by decide

/-! ## Digit and decimal-rendering lemmas -/

lemma digitChar_isDigit (d : Nat) : (digitChar d).isDigit = true := by
  unfold digitChar
  split <;> decide

lemma digitVal_digitChar {d : Nat} (h : d < 10) : digitVal (digitChar d) = d := by
  interval_cases d <;> decide

lemma natDigits_all_digit (n : Nat) : ∀ c ∈ natDigits n, c.isDigit = true := by
  induction n using Nat.strong_induction_on with
  | _ n ih =>
    rw [natDigits]
    split
    · intro c hc
      simp only [List.mem_singleton] at hc
      subst hc
      exact digitChar_isDigit n
    · intro c hc
      rcases List.mem_append.mp hc with h1 | h1
      · exact ih (n / 10) (Nat.div_lt_self (by omega) (by omega)) c h1
      · simp only [List.mem_singleton] at h1
        subst h1
        exact digitChar_isDigit (n % 10)

lemma natDigits_ne_nil (n : Nat) : natDigits n ≠ [] := by
  rw [natDigits]
  split
  · simp
  · intro h
    have := List.append_eq_nil.mp h
    simp at this

lemma pyDigitsAux_cons_digit {c : Char} (hc : c.isDigit = true) (acc : Nat)
    (cs : List Char) :
    pyDigitsAux acc (c :: cs) = pyDigitsAux (acc * 10 + digitVal c) cs := by
  conv_lhs => rw [pyDigitsAux.eq_def]
  simp [hc]

lemma pyDigits_cons_digit {c : Char} (hc : c.isDigit = true) (cs : List Char) :
    pyDigits (c :: cs) = pyDigitsAux (digitVal c) cs := by
  conv_lhs => rw [pyDigits.eq_def]
  simp [hc]

lemma pyDigits_natDigits_append (n : Nat) :
    ∀ rest, pyDigits (natDigits n ++ rest) = pyDigitsAux n rest := by
  induction n using Nat.strong_induction_on with
  | _ n ih =>
    intro rest
    rw [natDigits]
    split
    · rw [List.singleton_append, pyDigits_cons_digit (digitChar_isDigit n),
        digitVal_digitChar (by omega : n < 10)]
    · rw [List.append_assoc, List.singleton_append,
        ih (n / 10) (Nat.div_lt_self (by omega) (by omega)),
        pyDigitsAux_cons_digit (digitChar_isDigit (n % 10)),
        digitVal_digitChar (Nat.mod_lt _ (by omega) : n % 10 < 10)]
      have h10 : n / 10 * 10 + n % 10 = n := by omega
      rw [h10]

lemma pyDigits_natDigits (n : Nat) : pyDigits (natDigits n) = some n := by
  have := pyDigits_natDigits_append n []
  simpa [pyDigitsAux] using this

lemma dropWhile_eq_self {p : Char → Bool} {l : List Char}
    (h : ∀ c ∈ l, p c = false) : l.dropWhile p = l := by
  cases l with
  | nil => rfl
  | cons a t => simp [List.dropWhile_cons, h a (by simp)]

lemma isDigit_not_whitespace {c : Char} (h : c.isDigit = true) :
    decide (c ∈ pyWhitespace) = false := by
  simp only [pyWhitespace, decide_eq_false_iff_not, List.mem_cons, List.mem_singleton,
    List.not_mem_nil, or_false]
  rintro (rfl | rfl | rfl | rfl | rfl | rfl) <;> simp_all

lemma pyStrip_eq_self {l : List Char} (h : ∀ c ∈ l, c.isDigit = true) :
    pyStrip l = l := by
  unfold pyStrip
  have h1 : ∀ c ∈ l, decide (c ∈ pyWhitespace) = false :=
    fun c hc => isDigit_not_whitespace (h c hc)
  rw [dropWhile_eq_self h1, dropWhile_eq_self (fun c hc => h1 c (List.mem_reverse.mp hc)),
    List.reverse_reverse]

lemma isDigit_ne_minus {c : Char} (h : c.isDigit = true) : c ≠ '-' := by
  rintro rfl; simp at h

lemma isDigit_ne_plus {c : Char} (h : c.isDigit = true) : c ≠ '+' := by
  rintro rfl; simp at h

lemma pyInt_natDigits (n : Nat) : pyInt (natDigits n) = some (n : Int) := by
  unfold pyInt
  rw [pyStrip_eq_self (natDigits_all_digit n)]
  rcases hd : natDigits n with _ | ⟨c, cs⟩
  · exact absurd hd (natDigits_ne_nil n)
  have hc : c.isDigit = true := natDigits_all_digit n c (by rw [hd]; simp)
  rw [← hd]
  split
  · rename_i rest heq
    rw [hd] at heq
    exact absurd (List.head_eq_of_cons_eq heq) (isDigit_ne_minus hc)
  · rename_i rest heq
    rw [hd] at heq
    exact absurd (List.head_eq_of_cons_eq heq) (isDigit_ne_plus hc)
  · rw [pyDigits_natDigits n]
    rfl

/-! ## `splitDots` lemmas -/

lemma splitDots_no_dot {l : List Char} (h : '.' ∉ l) : splitDots l = [l] := by
  induction l with
  | nil => rfl
  | cons c cs ih =>
    have hc : c ≠ '.' := fun hc => h (hc ▸ List.mem_cons_self c cs)
    have hcs : '.' ∉ cs := fun hm => h (List.mem_cons_of_mem c hm)
    rw [splitDots, if_neg (by simpa using fun hh => hc hh), ih hcs]

lemma splitDots_append {a : List Char} (b : List Char) (h : '.' ∉ a) :
    splitDots (a ++ '.' :: b) = a :: splitDots b := by
  induction a with
  | nil => simp [splitDots]
  | cons c cs ih =>
    have hc : c ≠ '.' := fun hc => h (hc ▸ List.mem_cons_self c cs)
    have hcs : '.' ∉ cs := fun hm => h (List.mem_cons_of_mem c hm)
    rw [List.cons_append, splitDots, if_neg (by simpa using fun hh => hc hh), ih hcs]

lemma natDigits_no_dot (n : Nat) : '.' ∉ natDigits n := by
  intro hm
  have := natDigits_all_digit n '.' hm
  simp at this

/-! ## Characterization of `fromVersionString` -/

/-- `fromVersionString s = some v` exactly when the components of `s`
convert to two or three non-negative integers satisfying the version-range
checks of the source, and `v` is built from them. -/
lemma fromVersionString_eq_some_iff (s : String) (v : LLVMVersionDetails) :
    LLVMVersionDetails.fromVersionString s = some v ↔
      (∃ a b : Int, parseComponents (splitDots s.data) = some [a, b] ∧
        0 ≤ a ∧ 0 ≤ b ∧ (2 < a ∨ (a = 2 ∧ 6 ≤ b)) ∧ (a < 3 ∨ (a = 3 ∧ b ≤ 4)) ∧
        v = ⟨a.toNat, b.toNat, none⟩) ∨
      (∃ a b c : Int, parseComponents (splitDots s.data) = some [a, b, c] ∧
        0 ≤ a ∧ 0 ≤ b ∧ 0 ≤ c ∧ (3 < a ∨ (a = 3 ∧ 4 ≤ b)) ∧
        v = ⟨a.toNat, b.toNat, some c.toNat⟩) := by
  unfold LLVMVersionDetails.fromVersionString
  rcases h : parseComponents (splitDots s.data) with _ | vs
  · simp
  rcases vs with _ | ⟨a, vs⟩
  · simp
  rcases vs with _ | ⟨b, vs⟩
  · simp
  rcases vs with _ | ⟨c, vs⟩
  · -- exactly two components
    simp only [Option.some.injEq, List.cons.injEq, and_true, and_false, false_and,
      exists_false, or_false, false_or, reduceCtorEq]
    split_ifs with h1 h2 h3
    · constructor
      · intro hv; simp at hv
      · rintro ⟨a', b', ⟨rfl, rfl⟩, h0a, h0b, _⟩
        omega
    · constructor
      · intro hv; simp at hv
      · rintro ⟨a', b', ⟨rfl, rfl⟩, h0a, h0b, hc1, _⟩
        omega
    · constructor
      · intro hv; simp at hv
      · rintro ⟨a', b', ⟨rfl, rfl⟩, h0a, h0b, hc1, hc2, _⟩
        omega
    · constructor
      · intro hv
        obtain rfl : v = ⟨a.toNat, b.toNat, none⟩ := (Option.some.inj hv).symm
        exact ⟨a, b, ⟨rfl, rfl⟩, by omega, by omega, by omega, by omega, rfl⟩
      · rintro ⟨a', b', ⟨rfl, rfl⟩, h0a, h0b, hc1, hc2, rfl⟩
        rfl
  rcases vs with _ | ⟨d, vs⟩
  · -- exactly three components
    simp only [Option.some.injEq, List.cons.injEq, and_true, and_false, false_and,
      exists_false, or_false, false_or, reduceCtorEq]
    split_ifs with h1 h2 h3
    · constructor
      · intro hv; simp at hv
      · rintro ⟨a', b', c', ⟨rfl, rfl, rfl⟩, h0a, h0b, h0c, _⟩
        omega
    · constructor
      · intro hv; simp at hv
      · rintro ⟨a', b', c', ⟨rfl, rfl, rfl⟩, h0a, h0b, h0c, hc1, _⟩
        omega
    · constructor
      · intro hv; simp at hv
      · rintro ⟨a', b', c', ⟨rfl, rfl, rfl⟩, h0a, h0b, h0c, hc1, _⟩
        omega
    · constructor
      · intro hv
        obtain rfl : v = ⟨a.toNat, b.toNat, some c.toNat⟩ := (Option.some.inj hv).symm
        exact ⟨a, b, c, ⟨rfl, rfl, rfl⟩, by omega, by omega, by omega, by omega, rfl⟩
      · rintro ⟨a', b', c', ⟨rfl, rfl, rfl⟩, h0a, h0b, h0c, hc1, rfl⟩
        rfl
  · -- four or more components
    simp

lemma parseComponents_cons (c : List Char) (cs : List (List Char)) :
    parseComponents (c :: cs) =
      match pyInt c, parseComponents cs with
      | some v, some vs => some (v :: vs)
      | _, _ => none := rfl

lemma parseComponents_length {l : List (List Char)} {vs : List Int}
    (h : parseComponents l = some vs) : vs.length = l.length := by
  induction l generalizing vs with
  | nil =>
    simp only [parseComponents, Option.some.injEq] at h
    subst h
    rfl
  | cons c cs ih =>
    rw [parseComponents_cons] at h
    rcases h1 : pyInt c with _ | x <;> rw [h1] at h
    · simp at h
    rcases h2 : parseComponents cs with _ | xs <;> rw [h2] at h
    · simp at h
    simp only [Option.some.injEq] at h
    subst h
    simp [ih h2]

/-- The invariants that every version object constructed by
`fromVersionString` satisfies (derived from the validation checks). -/
def VersionInv (v : LLVMVersionDetails) : Prop :=
  2 ≤ v.major ∧ (v.major = 2 → 6 ≤ v.minor) ∧
    (match v.revision with
     | none => v.major < 3 ∨ (v.major = 3 ∧ v.minor ≤ 4)
     | some _ => 3 < v.major ∨ (v.major = 3 ∧ 4 ≤ v.minor))

lemma versionInv_of_parse {s : String} {v : LLVMVersionDetails}
    (h : LLVMVersionDetails.fromVersionString s = some v) : VersionInv v := by
  rcases (fromVersionString_eq_some_iff s v).mp h with
    ⟨a, b, _, ha, hb, hc1, hc2, rfl⟩ | ⟨a, b, c, _, ha, hb, hc, hcond, rfl⟩
  · refine ⟨?_, ?_, ?_⟩ <;> (dsimp only [VersionInv]) <;> omega
  · refine ⟨?_, ?_, ?_⟩ <;> (dsimp only [VersionInv]) <;> omega

lemma str_data_none (M m : Nat) :
    (LLVMVersionDetails.str ⟨M, m, none⟩).data = natDigits M ++ '.' :: natDigits m := by
  show (natStr M ++ "." ++ natStr m).data = _
  rw [String.data_append (natStr M ++ ".") (natStr m), String.data_append (natStr M) "."]
  simp [natStr]

lemma str_data_some (M m r : Nat) :
    (LLVMVersionDetails.str ⟨M, m, some r⟩).data =
      natDigits M ++ '.' :: (natDigits m ++ '.' :: natDigits r) := by
  show (natStr M ++ "." ++ natStr m ++ "." ++ natStr r).data = _
  rw [String.data_append (natStr M ++ "." ++ natStr m ++ ".") (natStr r),
    String.data_append (natStr M ++ "." ++ natStr m) ".",
    String.data_append (natStr M ++ ".") (natStr m),
    String.data_append (natStr M) "."]
  simp [natStr]

lemma splitDots_str_none (M m : Nat) :
    splitDots (LLVMVersionDetails.str ⟨M, m, none⟩).data = [natDigits M, natDigits m] := by
  rw [str_data_none, splitDots_append _ (natDigits_no_dot M),
    splitDots_no_dot (natDigits_no_dot m)]

lemma splitDots_str_some (M m r : Nat) :
    splitDots (LLVMVersionDetails.str ⟨M, m, some r⟩).data =
      [natDigits M, natDigits m, natDigits r] := by
  rw [str_data_some, splitDots_append _ (natDigits_no_dot M),
    splitDots_append _ (natDigits_no_dot m), splitDots_no_dot (natDigits_no_dot r)]

lemma parseComponents_natDigits_two (M m : Nat) :
    parseComponents [natDigits M, natDigits m] = some [(M : Int), (m : Int)] := by
  simp [parseComponents, pyInt_natDigits]

lemma parseComponents_natDigits_three (M m r : Nat) :
    parseComponents [natDigits M, natDigits m, natDigits r] =
      some [(M : Int), (m : Int), (r : Int)] := by
  simp [parseComponents, pyInt_natDigits]

/-- Re-parsing the canonical string form of a version that satisfies the
parser's invariants yields the same version. -/
lemma fromVersionString_str {v : LLVMVersionDetails} (hv : VersionInv v) :
    LLVMVersionDetails.fromVersionString v.str = some v := by
  obtain ⟨M, m, r⟩ := v
  rcases r with _ | r
  · obtain ⟨h1, h2, h3⟩ : 2 ≤ M ∧ (M = 2 → 6 ≤ m) ∧ (M < 3 ∨ (M = 3 ∧ m ≤ 4)) := by
      simpa [VersionInv] using hv
    apply (fromVersionString_eq_some_iff _ _).mpr
    refine Or.inl ⟨(M : Int), (m : Int), ?_, by omega, by omega, by omega, by omega, ?_⟩
    · rw [splitDots_str_none, parseComponents_natDigits_two]
    · simp
  · obtain ⟨h1, h2, h3⟩ : 2 ≤ M ∧ (M = 2 → 6 ≤ m) ∧ (3 < M ∨ (M = 3 ∧ 4 ≤ m)) := by
      simpa [VersionInv] using hv
    apply (fromVersionString_eq_some_iff _ _).mpr
    refine Or.inr ⟨(M : Int), (m : Int), (r : Int), ?_, by omega, by omega, by omega,
      by omega, ?_⟩
    · rw [splitDots_str_some, parseComponents_natDigits_three]
    · simp

/-! ## Claim theorems -/

/-- C1 (counterexample): the claim "every 3-component version below 3.4.1
is rejected" is false: `"3.4.0"` has exactly three dot-separated
non-negative integer components, denotes a version strictly below 3.4.1,
and is accepted by `fromVersionString`. -/
theorem c1_counterexample :
    parseComponents (splitDots ("3.4.0").data) = some [3, 4, 0] ∧
    versionLt ⟨3, 4, some 0⟩ ⟨3, 4, some 1⟩ ∧
    LLVMVersionDetails.fromVersionString "3.4.0" = some ⟨3, 4, some 0⟩ := by
  refine ⟨by decide, by decide, by decide⟩

/-- C1 (amended): for every input string with exactly 3 dot-separated
non-negative integer components, `fromVersionString` accepts iff
`(major, minor) ≥ (3, 4)`, i.e. iff the version it denotes is ≥ 3.4.0
(not 3.4.1: the 3-component version 3.4.0 is also accepted); every
3-component version below 3.4.0 is rejected. -/
theorem c1_three_component_acceptance (s : String) (a b c : Int)
    (h : parseComponents (splitDots s.data) = some [a, b, c])
    (ha : 0 ≤ a) (hb : 0 ≤ b) (hc : 0 ≤ c) :
    (LLVMVersionDetails.fromVersionString s).isSome = true ↔
      (3 < a ∨ (a = 3 ∧ 4 ≤ b)) := by
  rw [Option.isSome_iff_exists]
  constructor
  · rintro ⟨v, hv⟩
    rcases (fromVersionString_eq_some_iff s v).mp hv with
      ⟨a', b', h2, _⟩ | ⟨a', b', c', h3, _, _, _, hcond, _⟩
    · rw [h] at h2
      simp at h2
    · rw [h] at h3
      simp only [Option.some.injEq, List.cons.injEq, and_true] at h3
      obtain ⟨rfl, rfl, rfl⟩ := h3
      exact hcond
  · intro hcond
    exact ⟨⟨a.toNat, b.toNat, some c.toNat⟩,
      (fromVersionString_eq_some_iff s _).mpr
        (Or.inr ⟨a, b, c, h, ha, hb, hc, hcond, rfl⟩)⟩

/-- C1 witness: the amended theorem applied at the concrete input
`"3.4.0"`. -/
theorem c1_witness :
    parseComponents (splitDots ("3.4.0").data) = some [3, 4, 0] ∧
    (LLVMVersionDetails.fromVersionString "3.4.0").isSome = true :=
  ⟨by decide,
    (c1_three_component_acceptance "3.4.0" 3 4 0 (by decide) (by decide) (by decide)
      (by decide)).mpr (by omega)⟩

/-- C2 (counterexample): the claimed acceptance condition is not an "iff":
`"2.6.0"` splits into the three non-negative integer components 2, 6, 0,
denotes a version ≥ 2.6 (and is not in 2-component form), yet the code
rejects it, because a 3-component form is also only accepted from 3.4 on —
a condition the claim omits. -/
theorem c2_counterexample :
    parseComponents (splitDots ("2.6.0").data) = some [2, 6, 0] ∧
    LLVMVersionDetails.fromVersionString "2.6.0" = none := by
  refine ⟨by decide, by decide⟩

/-- C2 (amended): `fromVersionString` accepts iff the string splits on `.`
into exactly 2 or 3 integer components, all non-negative, the version is
≥ 2.6, a 2-component form is used only for versions ≤ 3.4, and a
3-component form only for versions whose (major, minor) ≥ (3, 4);
consequently `"2.5"`, `"3.4.1.2"`, `"-3.7.0"`, `"hg"`, `"3."` are all
rejected and `"3.4"`, `"3.4.1"`, `"2.6"`, `"3.5.0"` are all accepted. -/
theorem c2_acceptance_characterization :
    (∀ s : String, (LLVMVersionDetails.fromVersionString s).isSome = true ↔
      ((∃ a b : Int, parseComponents (splitDots s.data) = some [a, b] ∧
          0 ≤ a ∧ 0 ≤ b ∧ (2 < a ∨ (a = 2 ∧ 6 ≤ b)) ∧ (a < 3 ∨ (a = 3 ∧ b ≤ 4))) ∨
       (∃ a b c : Int, parseComponents (splitDots s.data) = some [a, b, c] ∧
          0 ≤ a ∧ 0 ≤ b ∧ 0 ≤ c ∧ (2 < a ∨ (a = 2 ∧ 6 ≤ b)) ∧
          (3 < a ∨ (a = 3 ∧ 4 ≤ b))))) ∧
    LLVMVersionDetails.fromVersionString "2.5" = none ∧
    LLVMVersionDetails.fromVersionString "3.4.1.2" = none ∧
    LLVMVersionDetails.fromVersionString "-3.7.0" = none ∧
    LLVMVersionDetails.fromVersionString "hg" = none ∧
    LLVMVersionDetails.fromVersionString "3." = none ∧
    (LLVMVersionDetails.fromVersionString "3.4").isSome = true ∧
    (LLVMVersionDetails.fromVersionString "3.4.1").isSome = true ∧
    (LLVMVersionDetails.fromVersionString "2.6").isSome = true ∧
    (LLVMVersionDetails.fromVersionString "3.5.0").isSome = true := by
  refine ⟨fun s => ?_, by decide, by decide, by decide, by decide, by decide,
    by decide, by decide, by decide, by decide⟩
  rw [Option.isSome_iff_exists]
  constructor
  · rintro ⟨v, hv⟩
    rcases (fromVersionString_eq_some_iff s v).mp hv with
      ⟨a, b, h2, ha, hb, hc1, hc2, _⟩ | ⟨a, b, c, h3, ha, hb, hc, hcond, _⟩
    · exact Or.inl ⟨a, b, h2, ha, hb, hc1, hc2⟩
    · exact Or.inr ⟨a, b, c, h3, ha, hb, hc, by omega, hcond⟩
  · rintro (⟨a, b, h2, ha, hb, hc1, hc2⟩ | ⟨a, b, c, h3, ha, hb, hc, _, hcond⟩)
    · exact ⟨_, (fromVersionString_eq_some_iff s _).mpr
        (Or.inl ⟨a, b, h2, ha, hb, hc1, hc2, rfl⟩)⟩
    · exact ⟨_, (fromVersionString_eq_some_iff s _).mpr
        (Or.inr ⟨a, b, c, h3, ha, hb, hc, hcond, rfl⟩)⟩

/-- C3: round trip through the canonical string form: for every accepted
version string `s`, re-parsing `str(parse(s))` yields exactly the parsed
version again (so `parse(str(parse(s))) == parse(s)`). -/
theorem c3_roundtrip (s : String) (v : LLVMVersionDetails)
    (h : LLVMVersionDetails.fromVersionString s = some v) :
    LLVMVersionDetails.fromVersionString v.str = some v :=
  fromVersionString_str (versionInv_of_parse h)

/-- C3 witness: the round trip applied at the concrete accepted input
`"3.4.1"`. -/
theorem c3_witness :
    LLVMVersionDetails.fromVersionString
        (LLVMVersionDetails.str ⟨3, 4, some 1⟩) = some ⟨3, 4, some 1⟩ :=
  c3_roundtrip "3.4.1" ⟨3, 4, some 1⟩ (by decide)

/-- C10: `fromVersionString` is total by construction (it returns `none`
rather than raising on any input, the `try`/`except` of the source being
modelled by the `Option`-valued `pyInt`), and every version object it
returns satisfies the invariants: major ≥ 2; if major = 2 then minor ≥ 6;
minor and revision are natural numbers (non-negativity is enforced by the
explicit check before construction); and the revision is absent exactly
when the input had two dot-separated components. -/
theorem c10_parser_invariants (s : String) (v : LLVMVersionDetails)
    (h : LLVMVersionDetails.fromVersionString s = some v) :
    2 ≤ v.major ∧ (v.major = 2 → 6 ≤ v.minor) ∧
    (v.revision = none ↔ (splitDots s.data).length = 2) ∧
    (v.revision.isSome = true ↔ (splitDots s.data).length = 3) := by
  rcases (fromVersionString_eq_some_iff s v).mp h with
    ⟨a, b, hp, ha, hb, hc1, hc2, rfl⟩ | ⟨a, b, c, hp, ha, hb, hc, hcond, rfl⟩
  · have hlen : (splitDots s.data).length = 2 := by
      have := parseComponents_length hp
      simpa using this.symm
    refine ⟨by dsimp only; omega, by dsimp only; omega, ?_, ?_⟩ <;> simp [hlen]
  · have hlen : (splitDots s.data).length = 3 := by
      have := parseComponents_length hp
      simpa using this.symm
    refine ⟨by dsimp only; omega, by dsimp only; omega, ?_, ?_⟩ <;> simp [hlen]

/-- C10 witness: the invariants at the concrete inputs `"2.6"` and
`"3.5.0"`. -/
theorem c10_witness :
    2 ≤ (⟨2, 6, none⟩ : LLVMVersionDetails).major ∧
    ((⟨2, 6, none⟩ : LLVMVersionDetails).revision = none ↔
      (splitDots ("2.6").data).length = 2) :=
  ⟨(c10_parser_invariants "2.6" ⟨2, 6, none⟩ (by decide)).1,
    (c10_parser_invariants "2.6" ⟨2, 6, none⟩ (by decide)).2.2.1⟩

/-- C4: for every parsed version the source-archive extension follows the
four documented bands: `.tgz` for 2.7 through 2.9, `.tar.gz` for 2.6 and
3.0, `.src.tar.gz` for 3.1 through 3.4.x, and `.src.tar.xz` for 3.5.0 and
later. -/
theorem c4_extension_bands (s : String) (v : LLVMVersionDetails)
    (h : LLVMVersionDetails.fromVersionString s = some v) :
    (v.major = 2 ∧ 7 ≤ v.minor ∧ v.minor ≤ 9 → v.determineExtenion = ".tgz") ∧
    ((v.major = 2 ∧ v.minor = 6) ∨ (v.major = 3 ∧ v.minor = 0) →
      v.determineExtenion = ".tar.gz") ∧
    (v.major = 3 ∧ 1 ≤ v.minor ∧ v.minor ≤ 4 → v.determineExtenion = ".src.tar.gz") ∧
    (3 < v.major ∨ (v.major = 3 ∧ 5 ≤ v.minor) → v.determineExtenion = ".src.tar.xz") := by
  obtain ⟨M, m, r⟩ := v
  unfold LLVMVersionDetails.determineExtenion
  dsimp only
  refine ⟨fun hb => ?_, fun hb => ?_, fun hb => ?_, fun hb => ?_⟩ <;>
    split_ifs <;> first | rfl | (exfalso; omega)

/-- C4 witness: the band boundaries named by the claim, via the theorem
applied at the accepted inputs `"2.9"`, `"3.0"`, `"3.4.2"`, `"3.5.0"`. -/
theorem c4_witness :
    LLVMVersionDetails.determineExtenion ⟨2, 9, none⟩ = ".tgz" ∧
    LLVMVersionDetails.determineExtenion ⟨3, 0, none⟩ = ".tar.gz" ∧
    LLVMVersionDetails.determineExtenion ⟨3, 4, some 2⟩ = ".src.tar.gz" ∧
    LLVMVersionDetails.determineExtenion ⟨3, 5, some 0⟩ = ".src.tar.xz" :=
  ⟨(c4_extension_bands "2.9" ⟨2, 9, none⟩ (by decide)).1 (by decide),
   (c4_extension_bands "3.0" ⟨3, 0, none⟩ (by decide)).2.1 (by decide),
   (c4_extension_bands "3.4.2" ⟨3, 4, some 2⟩ (by decide)).2.2.1 (by decide),
   (c4_extension_bands "3.5.0" ⟨3, 5, some 0⟩ (by decide)).2.2.2 (by decide)⟩

lemma versionLt_32_of_33 {t : LLVMVersionDetails}
    (h : versionLt ⟨3, 3, none⟩ t) : versionLt ⟨3, 2, none⟩ t := by
  obtain ⟨tM, tm, tr⟩ := t
  rcases tr with _ | x <;>
    (simp only [versionLt, revisionKey] at * ; omega)

lemma not_versionLt_34_of_33 {t : LLVMVersionDetails}
    (h : ¬ versionLt ⟨3, 3, none⟩ t) : ¬ versionLt ⟨3, 4, none⟩ t := by
  obtain ⟨tM, tm, tr⟩ := t
  rcases tr with _ | x <;>
    (simp only [versionLt, revisionKey] at * ; omega)

/-- C5 (counterexample): there is no single threshold at which the
frontend base-name changes once: 3.2 uses "clang", 3.3 uses "cfe", and
3.4 uses "clang" again, so no threshold `t` with base-name `n1` below and
`n2` at-or-above can exist. -/
theorem c5_counterexample :
    ¬ ∃ (t : LLVMVersionDetails) (n1 n2 : String),
        ∀ (s : String) (v : LLVMVersionDetails),
          LLVMVersionDetails.fromVersionString s = some v →
          (versionLt v t → (v.listTarballs "Linux").clang = some n1) ∧
          (¬ versionLt v t → (v.listTarballs "Linux").clang = some n2) := by
  rintro ⟨t, n1, n2, hmono⟩
  have h32 := hmono "3.2" ⟨3, 2, none⟩ (by decide)
  have h33 := hmono "3.3" ⟨3, 3, none⟩ (by decide)
  have h34 := hmono "3.4" ⟨3, 4, none⟩ (by decide)
  have e32 : (LLVMVersionDetails.listTarballs ⟨3, 2, none⟩ "Linux").clang = some "clang" := by
    decide
  have e33 : (LLVMVersionDetails.listTarballs ⟨3, 3, none⟩ "Linux").clang = some "cfe" := by
    decide
  have e34 : (LLVMVersionDetails.listTarballs ⟨3, 4, none⟩ "Linux").clang = some "clang" := by
    decide
  by_cases hlt : versionLt ⟨3, 3, none⟩ t
  · have ha := h32.1 (versionLt_32_of_33 hlt)
    have hb := h33.1 hlt
    rw [e32] at ha
    rw [e33] at hb
    have : ("clang" : String) = "cfe" := by
      rw [Option.some.inj ha] at *
      exact (Option.some.inj hb).symm ▸ rfl
    simp at this
  · have ha := h34.2 (not_versionLt_34_of_33 hlt)
    have hb := h33.2 hlt
    rw [e34] at ha
    rw [e33] at hb
    have : ("clang" : String) = "cfe" := by
      rw [Option.some.inj ha] at *
      exact (Option.some.inj hb).symm ▸ rfl
    simp at this

/-- C5 (amended): the frontend ("clang") archive role is present for every
parsed version, and its base-name is "clang" exactly for versions below
3.3 and for the revision-less 3.4, and "cfe" otherwise (for 3.3 and for
3.4.1 onward) — the name changes three times across the ordered version
range (clang→cfe at 3.3, cfe→clang at 3.4, clang→cfe at 3.4.1), not
once. -/
theorem c5_frontend_basename (s : String) (v : LLVMVersionDetails) (plat : String)
    (h : LLVMVersionDetails.fromVersionString s = some v) :
    (v.listTarballs plat).clang.isSome = true ∧
    ((v.listTarballs plat).clang = some "clang" ↔
      (versionLt v ⟨3, 3, none⟩ ∨ v = ⟨3, 4, none⟩)) ∧
    ((v.listTarballs plat).clang = some "cfe" ↔
      ¬ (versionLt v ⟨3, 3, none⟩ ∨ v = ⟨3, 4, none⟩)) := by
  obtain ⟨M, m, r⟩ := v
  have key : (LLVMVersionDetails.listTarballs ⟨M, m, r⟩ plat).clang =
      if M < 3 ∨ (M = 3 ∧ (m < 3 ∨ (m = 4 ∧ r = none))) then some "clang"
      else some "cfe" := rfl
  have hQ : (versionLt ⟨M, m, r⟩ ⟨3, 3, none⟩ ∨
        (⟨M, m, r⟩ : LLVMVersionDetails) = ⟨3, 4, none⟩) ↔
      (M < 3 ∨ (M = 3 ∧ (m < 3 ∨ (m = 4 ∧ r = none)))) := by
    rcases r with _ | x <;>
      simp only [versionLt, revisionKey, LLVMVersionDetails.mk.injEq, and_true,
        and_false, or_false, reduceCtorEq, eq_self_iff_true] <;>
      omega
  rw [key]
  split_ifs with hc
  · refine ⟨rfl, ⟨fun _ => hQ.mpr hc, fun _ => rfl⟩, ⟨fun hx => ?_, fun hn => ?_⟩⟩
    · exact absurd (Option.some.inj hx) (by simp)
    · exact absurd (hQ.mpr hc) hn
  · refine ⟨rfl, ⟨fun hx => ?_, fun hq => ?_⟩, ⟨fun _ => fun hq => ?_, fun _ => rfl⟩⟩
    · exact absurd (Option.some.inj hx) (by simp)
    · exact absurd (hQ.mp hq) hc
    · exact absurd (hQ.mp hq) hc

/-- C5 witness: the amended theorem at the parsed versions 3.3 and 3.4. -/
theorem c5_witness :
    (LLVMVersionDetails.listTarballs ⟨3, 3, none⟩ "Linux").clang = some "cfe" ∧
    (LLVMVersionDetails.listTarballs ⟨3, 4, none⟩ "Linux").clang = some "clang" :=
  ⟨(c5_frontend_basename "3.3" ⟨3, 3, none⟩ "Linux" (by decide)).2.2.mpr (by decide),
   (c5_frontend_basename "3.4" ⟨3, 4, none⟩ "Linux" (by decide)).2.1.mpr (by decide)⟩

/-- C6: for every parsed version and host platform, the runtime
("compiler-rt") archive role is absent for versions below 3.1, present
from 3.1 on for non-Windows hosts, and absent on Windows regardless of
version. -/
theorem c6_runtime_presence (s : String) (v : LLVMVersionDetails) (plat : String)
    (h : LLVMVersionDetails.fromVersionString s = some v) :
    ((v.major < 3 ∨ (v.major = 3 ∧ v.minor < 1)) →
      (v.listTarballs plat).compilerRt = none) ∧
    ((3 < v.major ∨ (v.major = 3 ∧ 1 ≤ v.minor)) ∧ plat ≠ "Windows" →
      (v.listTarballs plat).compilerRt = some "compiler-rt") ∧
    (plat = "Windows" → (v.listTarballs plat).compilerRt = none) := by
  obtain ⟨M, m, r⟩ := v
  dsimp only
  have key : (LLVMVersionDetails.listTarballs ⟨M, m, r⟩ plat).compilerRt =
      if plat ≠ "Windows" ∧ (M > 3 ∨ (M = 3 ∧ m ≥ 1)) then some "compiler-rt"
      else none := rfl
  rw [key]
  refine ⟨fun hb => ?_, fun hb => ?_, fun hb => ?_⟩
  · rw [if_neg]
    rintro ⟨_, harith⟩
    omega
  · have harith : M > 3 ∨ (M = 3 ∧ m ≥ 1) := by
      have := hb.1
      omega
    rw [if_pos ⟨hb.2, harith⟩]
  · rw [if_neg]
    rintro ⟨hne, _⟩
    exact hne hb

/-- C6 witness: the theorem at the parsed versions 3.0 and 3.1 on Linux,
and 3.1 on Windows. -/
theorem c6_witness :
    (LLVMVersionDetails.listTarballs ⟨3, 0, none⟩ "Linux").compilerRt = none ∧
    (LLVMVersionDetails.listTarballs ⟨3, 1, none⟩ "Linux").compilerRt =
      some "compiler-rt" ∧
    (LLVMVersionDetails.listTarballs ⟨3, 1, none⟩ "Windows").compilerRt = none :=
  ⟨(c6_runtime_presence "3.0" ⟨3, 0, none⟩ "Linux" (by decide)).1 (by decide),
   (c6_runtime_presence "3.1" ⟨3, 1, none⟩ "Linux" (by decide)).2.1
     ⟨by decide, by decide⟩,
   (c6_runtime_presence "3.1" ⟨3, 1, none⟩ "Windows" (by decide)).2.2 rfl⟩

/-- C7: for every parsed version and host platform, the standard-library
("libcxx") archive role is present iff the host platform is Darwin
(macOS) and the version is at least 3.3. -/
theorem c7_libcxx_presence (s : String) (v : LLVMVersionDetails) (plat : String)
    (h : LLVMVersionDetails.fromVersionString s = some v) :
    (v.listTarballs plat).libcxx.isSome = true ↔
      (plat = "Darwin" ∧ (3 < v.major ∨ (v.major = 3 ∧ 3 ≤ v.minor))) := by
  obtain ⟨M, m, r⟩ := v
  dsimp only [LLVMVersionDetails.listTarballs]
  split_ifs with hc
  · simpa using hc
  · simpa using hc

/-- C7 witness: the theorem at the parsed version 3.3 on Darwin and on
Linux. -/
theorem c7_witness :
    (LLVMVersionDetails.listTarballs ⟨3, 3, none⟩ "Darwin").libcxx.isSome = true ∧
    ¬ (LLVMVersionDetails.listTarballs ⟨3, 3, none⟩ "Linux").libcxx.isSome = true :=
  ⟨(c7_libcxx_presence "3.3" ⟨3, 3, none⟩ "Darwin" (by decide)).mpr
      ⟨rfl, by decide⟩,
   fun hx => by
    have := (c7_libcxx_presence "3.3" ⟨3, 3, none⟩ "Linux" (by decide)).mp hx
    simp at this⟩

lemma natStr_34 : natStr 3 ++ "." ++ natStr 4 = "3.4" := by
  simp [natStr, natDigits, digitChar]

/-- C8: for every parsed version and every archive role present for it,
the archive filename is `basename ++ "-" ++ roleVersionString ++
extension` and the download URL is
`"http://llvm.org/releases/" ++ roleVersionString ++ "/" ++ filename`,
where the role-version-string is the canonical version string except that
for the 3.4-series releases the compiler-rt and libcxx roles use the
two-component string `"3.4"` while the other roles use the full version
string. -/
theorem c8_filename_and_url (s : String) (v : LLVMVersionDetails) (plat : String)
    (name : TarballName) (basename : String)
    (_h : LLVMVersionDetails.fromVersionString s = some v)
    (hb : (v.listTarballs plat).get name = some basename) :
    v.tarballFilename plat name =
      some (basename ++ "-" ++ v.tarballVersionString name ++ v.determineExtenion) ∧
    v.tarballURL plat name =
      some ("http://llvm.org/releases/" ++ v.tarballVersionString name ++ "/" ++
        (basename ++ "-" ++ v.tarballVersionString name ++ v.determineExtenion)) ∧
    (v.major = 3 ∧ v.minor = 4 ∧ (name = .compilerRt ∨ name = .libcxx) →
      v.tarballVersionString name = "3.4") ∧
    (¬(v.major = 3 ∧ v.minor = 4) ∨ (name = .llvm ∨ name = .clang) →
      v.tarballVersionString name = v.str) := by
  have hfile : v.tarballFilename plat name =
      some (basename ++ "-" ++ v.tarballVersionString name ++ v.determineExtenion) := by
    unfold LLVMVersionDetails.tarballFilename
    rw [hb]
  refine ⟨hfile, ?_, ?_, ?_⟩
  · unfold LLVMVersionDetails.tarballURL
    rw [if_neg (by rw [hb]; simp), hfile]
    rfl
  · rintro ⟨h3, h4, hrole⟩
    unfold LLVMVersionDetails.tarballVersionString
    rw [if_pos ⟨hrole, h3, h4⟩, h3, h4]
    exact natStr_34
  · intro hcase
    unfold LLVMVersionDetails.tarballVersionString
    rw [if_neg]
    rintro ⟨hrole, h34⟩
    rcases hcase with h34n | hname
    · exact h34n h34
    · rcases hrole with hr | hr <;> rcases hname with hn | hn <;>
        rw [hn] at hr <;> exact TarballName.noConfusion hr

/-- C8 witness: the theorem at the parsed version 3.4.1 for the
compiler-rt role on Darwin: that role uses the two-component version
string "3.4" in its filename while the version's own string form is
"3.4.1". -/
theorem c8_witness :
    LLVMVersionDetails.tarballFilename ⟨3, 4, some 1⟩ "Darwin" .compilerRt =
      some ("compiler-rt" ++ "-" ++
        LLVMVersionDetails.tarballVersionString ⟨3, 4, some 1⟩ .compilerRt ++
        LLVMVersionDetails.determineExtenion ⟨3, 4, some 1⟩) ∧
    LLVMVersionDetails.tarballVersionString ⟨3, 4, some 1⟩ .compilerRt = "3.4" :=
  ⟨(c8_filename_and_url "3.4.1" ⟨3, 4, some 1⟩ "Darwin" .compilerRt "compiler-rt"
      (by decide) (by decide)).1,
   (c8_filename_and_url "3.4.1" ⟨3, 4, some 1⟩ "Darwin" .compilerRt "compiler-rt"
      (by decide) (by decide)).2.2.1 ⟨rfl, rfl, Or.inl rfl⟩⟩

/-- C9 (counterexample): `LLVMBuilder.build` itself performs no validation
of its `buildType` argument: for the invalid build type "Bogus" the
sequence of side effects is non-empty and its very first element is the
`makedirs` call for the build directory — the invalid build type is not
reported and side effects are attempted. -/
theorem c9_counterexample :
    ("Bogus" ∉ CmakeBuildTypes) ∧
    buildEffects "Bogus" "/usr/local/llvm" "Linux" false false false "" "/work"
        ⟨3, 4, some 1⟩ false ≠ [] ∧
    (buildEffects "Bogus" "/usr/local/llvm" "Linux" false false false "" "/work"
        ⟨3, 4, some 1⟩ false).head? =
      some (Effect.makedirs "/work/llvm-src/build") := by
  refine ⟨by decide, by decide, by decide⟩

/-- C9 (amended): the validation of the build type happens in the
`__main__` entry point, not in `LLVMBuilder.build`: for every argument
vector whose build type is not one of the four allowed values, the
dispatcher stops with the invalid-build-type error (printing the message
and exiting with status 1) before any operation — and hence any side
effect — is dispatched; `LLVMBuilder.build` itself performs no
validation. -/
theorem c9_main_validates_buildtype (args : MainArgs)
    (h : args.buildtype ∉ CmakeBuildTypes) :
    mainDispatch args = .error (.invalidBuildType args.buildtype) := by
  unfold mainDispatch
  rw [if_pos h]

/-- C9 witness: the amended theorem at a concrete argument vector with the
invalid build type "Bogus". -/
theorem c9_witness :
    mainDispatch ⟨false, false, true, false, "3.4.1", "Bogus"⟩ =
      .error (.invalidBuildType "Bogus") :=
  c9_main_validates_buildtype ⟨false, false, true, false, "3.4.1", "Bogus"⟩ (by decide)

end LLVMSelect
